import Mathlib

/-!
Shallow embedding of `src/index.ts` of the prettier plugin
`prettier-plugin-detect-throw`.

The plugin intercepts the parsed Program tree of one TypeScript file,
normalizes its options (decoding JSON-encoded list options in place),
filters the file by include/exclude glob patterns, and — when the file is
processed — walks the tree once and inserts highlight / warning comment
nodes next to `throw` statements.

External collaborators are modelled by their documented contracts:
* `micromatch.isMatch(path, patterns)` is `true` iff at least one pattern
  in the pattern list matches the path; the per-pattern matcher is an
  abstract parameter `m : String → String → Bool`.  With an empty pattern
  list no pattern matches, so the result is `false`.
* `JSON.parse` is an abstract parameter `jp : String → Except String JValue`
  (a thrown `SyntaxError` is the `.error` case).
* `attachComments` (estree-util-attach-comments) inserts the given comment
  nodes into the tree at the position determined by their location; it does
  not modify the Program's top-level `comments` array.  Inserted comment
  nodes are collected in the `attached` component of `ProgramTree`, in insertion
  order; their lexical placement is that service's concern.
-/

/-- A source position (ESTree `loc.start` / `loc.end`): 1-based line,
0-based column.  Lines are `Int` so that the `line - 1` arithmetic of
`hasComment` behaves as in JavaScript. -/
structure Position where
  line : Int
  column : Int
deriving DecidableEq

/-- An ESTree source location: the object stored in a node's `loc` field.
Its `start` key is what the traversal guard `"start" in node` detects. -/
structure SourceLocation where
  start : Position
  «end» : Position
deriving DecidableEq

/-- A TSESTree comment node: `{ type, value, loc, range }`. -/
structure Comment where
  type : String
  value : String
  loc : SourceLocation
  range : Int × Int
deriving DecidableEq

mutual

/-- A TSESTree node as the duck-typed traversal of `src/index.ts` sees it:
a `type` tag, a `loc` object, a `range` array of two numbers, and the
remaining own properties as a keyed field list. -/
inductive Node where
  | mk (type : String) (loc : SourceLocation) (range : Int × Int) (fields : FieldList)

/-- The remaining own properties of a node, in property order. -/
inductive FieldList where
  | nil
  | cons (key : String) (val : FieldVal) (rest : FieldList)

/-- A property value of a node.  Each non-node variant corresponds to one
of the guards at the top of `traverse` (src/index.ts line 91):
`fnull`/`fundef` are cut off by `!node`, `fnum`/`fstr`/`fbool` by
`typeof node !== "object"`, `floc` (a location object, which has a
`start` key) by `"start" in node`; a `flist` is iterated element-wise. -/
inductive FieldVal where
  | fnode (n : Node)
  | flist (ns : NodeList)
  | floc (l : SourceLocation)
  | fnull
  | fundef
  | fnum (x : Int)
  | fstr (s : String)
  | fbool (b : Bool)

/-- An array-valued property: a sequence of child nodes. -/
inductive NodeList where
  | nil
  | cons (hd : Node) (tl : NodeList)

end

/-- The `type` tag of a node. -/
def Node.type : Node → String
  | .mk t _ _ _ => t

/-- The `loc` of a node. -/
def Node.loc : Node → SourceLocation
  | .mk _ l _ _ => l

/-- The `range` of a node. -/
def Node.range : Node → Int × Int
  | .mk _ _ r _ => r

/-- The remaining own properties of a node. -/
def Node.fields : Node → FieldList
  | .mk _ _ _ f => f

/-- Property lookup on the field list (JavaScript object property access). -/
def FieldList.lookupF : FieldList → String → Option FieldVal
  | .nil, _ => none
  | .cons k v rest, key => if k = key then some v else rest.lookupF key

/-- The callee-name test of src/index.ts line 36
(`arg.callee && "name" in arg.callee && arg.callee.name`): the name of
the callee when the callee is present, has a string `name` property, and
that name is truthy (non-empty). -/
def calleeNameOf (arg : Node) : Option String :=
  match arg.fields.lookupF "callee" with
  | some (.fnode callee) =>
    match callee.fields.lookupF "name" with
    | some (.fstr nm) => if nm ≠ "" then some nm else none
    | _ => none
  | _ => none

/-- Embeds `isAllowedErrorClass` (src/index.ts lines 30-48): a throw whose
argument is `new <Identifier>(...)` is allowed iff the callee name is in
`allowedClasses` (the source also requires the `name` to be truthy, i.e.
non-empty); a bare identifier argument is allowed unconditionally; every
other shape — including a missing or null argument — is not allowed. -/
def isAllowedErrorClass (throwExpr : Node) (allowedClasses : List String) : Bool :=
  match throwExpr.fields.lookupF "argument" with
  | some (.fnode arg) =>
    if arg.type = "NewExpression" then
      match calleeNameOf arg with
      | some nm => allowedClasses.contains nm
      | none => false
    else if arg.type = "Identifier" then true
    else false
  | _ => false

/-- The highlight comment synthesized at a throw node (src/index.ts lines
104-109): a Block comment whose `loc` and `range` are copied from the
throw node itself. -/
def highlightComment (node : Node) : Comment :=
  { type := "Block", value := " THROW STATEMENT ", loc := node.loc, range := node.range }

/-- The warning comment synthesized at a disallowed throw node
(src/index.ts lines 126-131): note the template literal
`` ` WARNING: Only throw instances of: ${allowedClassesStr} ` ``
ends with a space after the interpolation. -/
def warnComment (allowedClasses : List String) (node : Node) : Comment :=
  { type := "Block"
    value := " WARNING: Only throw instances of: " ++ String.intercalate ", " allowedClasses ++ " "
    loc := node.loc
    range := node.range }

/-- Embeds `hasComment` (src/index.ts lines 95-99): some existing comment in
the Program's top-level `comments` array starts on the line immediately
preceding the new comment's start line and has identical text.  When
`ast.comments` is `undefined` the optional chain yields `undefined`,
which the caller's `!hasComment(...)` treats as false, i.e. no
suppression. -/
def hasComment (comments : Option (List Comment)) (newComment : Comment) : Bool :=
  match comments with
  | none => false
  | some cs => cs.any fun c =>
      c.loc.start.line == newComment.loc.start.line - 1 && c.value == newComment.value

/-- The annotator's per-invocation configuration, after option decoding and
merging (the fields of `pluginOptions` the traversal reads). -/
structure Config where
  highlightThrows : Bool
  allowedErrorClasses : List String
  enforceAllowedClasses : Bool
deriving DecidableEq

/-- The comments inserted at one ThrowStatement node (src/index.ts lines
103-144), in insertion order: the highlight comment when
`highlightThrows` is set and not suppressed, then the warning comment
when `enforceAllowedClasses` is set, the throw is not allowed, and the
warning is not suppressed. -/
def processThrow (cfg : Config) (comments : Option (List Comment)) (node : Node) : List Comment :=
  (if cfg.highlightThrows then
    (if hasComment comments (highlightComment node) then [] else [highlightComment node])
   else [])
  ++ (if cfg.enforceAllowedClasses then
       (if isAllowedErrorClass node cfg.allowedErrorClasses then []
        else if hasComment comments (warnComment cfg.allowedErrorClasses node) then []
        else [warnComment cfg.allowedErrorClasses node])
      else [])

mutual

/-- Embeds `traverse` (src/index.ts lines 90-162) on a node that passed the
entry guards.  Returns the ThrowStatement nodes visited (in visit order)
paired with the comments inserted (in insertion order).  The insertion
decisions depend only on the Program's `comments` array, which nothing in
the pass writes, so the pass is a pure fold. -/
def travNode (cfg : Config) (co : Option (List Comment)) (n : Node) :
    List Node × List Comment :=
  match n with
  | .mk ntype _ _ fields =>
    ((if ntype = "ThrowStatement" then n :: (travFields cfg co fields).1
      else (travFields cfg co fields).1),
     (if ntype = "ThrowStatement" then processThrow cfg co n ++ (travFields cfg co fields).2
      else (travFields cfg co fields).2))

/-- `traverse` over the remaining own properties, in property order
(src/index.ts lines 148-161). -/
def travFields (cfg : Config) (co : Option (List Comment)) : FieldList →
    List Node × List Comment
  | .nil => ([], [])
  | .cons _ v rest =>
    ((travVal cfg co v).1 ++ (travFields cfg co rest).1,
     (travVal cfg co v).2 ++ (travFields cfg co rest).2)

/-- `traverse` on one property value: object children are descended into,
array children element-wise; null, undefined, numbers, strings, booleans
and location objects are cut off by the entry guards (src/index.ts
line 91). -/
def travVal (cfg : Config) (co : Option (List Comment)) : FieldVal →
    List Node × List Comment
  | .fnode n => travNode cfg co n
  | .flist ns => travList cfg co ns
  | .floc _ => ([], [])
  | .fnull => ([], [])
  | .fundef => ([], [])
  | .fnum _ => ([], [])
  | .fstr _ => ([], [])
  | .fbool _ => ([], [])

/-- `traverse` over the elements of an array-valued property
(src/index.ts lines 152-156). -/
def travList (cfg : Config) (co : Option (List Comment)) : NodeList →
    List Node × List Comment
  | .nil => ([], [])
  | .cons hd tl =>
    ((travNode cfg co hd).1 ++ (travList cfg co tl).1,
     (travNode cfg co hd).2 ++ (travList cfg co tl).2)

end

/-- The state of one file's parse result as this plugin sees it: the
Program root, the parser-populated top-level `comments` array (absent
when the parser did not collect comments), and the comment nodes that
`attachComments` has inserted into the tree, in insertion order. -/
structure ProgramTree where
  root : Node
  comments : Option (List Comment)
  attached : List Comment

/-- The comments one annotator pass over the tree inserts. -/
def insertedComments (cfg : Config) (t : ProgramTree) : List Comment :=
  (travNode cfg t.comments t.root).2

/-- One annotator pass (src/index.ts line 164 `traverse(ast)`): the throw
statements are visited and the synthesized comments are handed to
`attachComments`, which inserts them into the tree; the Program root's
non-comment structure and its top-level `comments` array are untouched. -/
def annotate (cfg : Config) (t : ProgramTree) : ProgramTree :=
  { t with attached := t.attached ++ insertedComments cfg t }

mutual

/-- The ThrowStatement nodes reachable from a node through its structural
child relationships (node-valued properties and elements of array-valued
properties), in tree order, each occurrence listed once. -/
def throwsIn (n : Node) : List Node :=
  match n with
  | .mk ntype _ _ fields =>
    (if ntype = "ThrowStatement" then [n] else []) ++ throwsInFields fields

/-- Reachable throw statements below a property list. -/
def throwsInFields : FieldList → List Node
  | .nil => []
  | .cons _ v rest => throwsInVal v ++ throwsInFields rest

/-- Reachable throw statements below one property value. -/
def throwsInVal : FieldVal → List Node
  | .fnode n => throwsIn n
  | .flist ns => throwsInList ns
  | _ => []

/-- Reachable throw statements below the elements of an array property. -/
def throwsInList : NodeList → List Node
  | .nil => []
  | .cons hd tl => throwsIn hd ++ throwsInList tl

end

/-- A JavaScript value as produced by `JSON.parse` (numbers are modelled as
integers; no numeric configuration arithmetic occurs in the plugin). -/
inductive JValue where
  | jnull
  | jbool (b : Bool)
  | jnum (x : Int)
  | jstr (s : String)
  | jarr (elems : List JValue)
  | jobj (fields : List (String × JValue))

/-- A JSON array of strings. -/
def jarrS (l : List String) : JValue :=
  .jarr (l.map .jstr)

/-- The caller-supplied options object, restricted to the properties
`processThrowStatements` reads (the `ThrowErrorOptions` interface,
src/index.ts lines 16-22).  `none` is an absent property. -/
structure RawOptions where
  highlightThrows : Option Bool := none
  allowedErrorClasses : Option JValue := none
  enforceAllowedClasses : Option Bool := none
  «include» : Option JValue := none
  exclude : Option JValue := none

/-- One decode step of the normalizer (src/index.ts lines 65-75): when the
property holds a string (`typeof ... === "string"`), it is replaced by the
result of `JSON.parse`; a parse failure propagates; every other value is
left untouched. -/
def decodeListOption (jp : String → Except String JValue) :
    Option JValue → Except String (Option JValue)
  | some (.jstr s) => (jp s).map some
  | v => .ok v

/-- The in-place decoding of the three list-valued options (src/index.ts
lines 65-75), in source order: `include`, then `exclude`, then
`allowedErrorClasses`.  The source assigns the decoded values back into
the caller-supplied options object; the returned record is that object's
state after the assignments. -/
def decodeOptions (jp : String → Except String JValue) (o : RawOptions) :
    Except String RawOptions := do
  let inc ← decodeListOption jp o.«include»
  let exc ← decodeListOption jp o.exclude
  let aec ← decodeListOption jp o.allowedErrorClasses
  return { o with «include» := inc, exclude := exc, allowedErrorClasses := aec }

/-- The merged `pluginOptions` (src/index.ts line 77,
`{ ...defaultOptions, ...options }`): defaults `highlightThrows=false`,
`allowedErrorClasses=[]`, `enforceAllowedClasses=false`, `include=[]`,
`exclude=[]` apply to the absent properties. -/
structure PluginOptions where
  highlightThrows : Bool
  allowedErrorClasses : JValue
  enforceAllowedClasses : Bool
  «include» : JValue
  exclude : JValue

/-- Merge with the defaults (src/index.ts lines 57-63 and 77). -/
def mergeOptions (o : RawOptions) : PluginOptions :=
  { highlightThrows := o.highlightThrows.getD false
    allowedErrorClasses := o.allowedErrorClasses.getD (.jarr [])
    enforceAllowedClasses := o.enforceAllowedClasses.getD false
    «include» := o.«include».getD (.jarr [])
    exclude := o.exclude.getD (.jarr []) }

/-- JavaScript truthiness of a value, as tested by the ternaries on
src/index.ts lines 81-82.  An array is always truthy, even when empty. -/
def jsTruthy : JValue → Bool
  | .jnull => false
  | .jbool b => b
  | .jnum x => x != 0
  | .jstr s => s != ""
  | .jarr _ => true
  | .jobj _ => true

/-- Micromatch's documented contract: with a pattern list, the path matches
iff at least one pattern matches it; `m` is the opaque per-pattern glob
matcher.  An empty pattern list therefore never matches. -/
def isMatch (m : String → String → Bool) (path : String) (patterns : List String) : Bool :=
  patterns.any fun pat => m path pat

/-- Reads a JavaScript array as a list of strings; `none` when some element
is not a string. -/
def asStrings : List JValue → Option (List String)
  | [] => some []
  | .jstr s :: rest => (asStrings rest).map (s :: ·)
  | _ => none

/-- The pattern argument micromatch accepts: a single pattern string, or an
array of pattern strings; anything else makes `micromatch.isMatch` raise
a `TypeError`. -/
def toPatterns : JValue → Option (List String)
  | .jstr s => some [s]
  | .jarr es => asStrings es
  | _ => none

/-- Embeds `shouldInclude` (src/index.ts line 81): when
`pluginOptions.include` is truthy, ask micromatch; otherwise `true`.  A
non-pattern value reaching micromatch raises (`.error`). -/
def shouldIncludeOf (m : String → String → Bool) (path : String) (inc : JValue) :
    Except String Bool :=
  if jsTruthy inc then
    match toPatterns inc with
    | some pats => .ok (isMatch m path pats)
    | none => .error "TypeError: invalid micromatch pattern"
  else .ok true

/-- Embeds `shouldExclude` (src/index.ts line 82): when
`pluginOptions.exclude` is truthy, ask micromatch; otherwise `false`. -/
def shouldExcludeOf (m : String → String → Bool) (path : String) (exc : JValue) :
    Except String Bool :=
  if jsTruthy exc then
    match toPatterns exc with
    | some pats => .ok (isMatch m path pats)
    | none => .error "TypeError: invalid micromatch pattern"
  else .ok false

/-- The skip condition on src/index.ts line 84:
`!shouldInclude || shouldExclude`. -/
def filterRejects (shouldInc shouldExc : Bool) : Bool :=
  !shouldInc || shouldExc

/-- The list-of-strings reading of `pluginOptions.allowedErrorClasses` that
the traversal's `includes` and `join` calls need. -/
def toStringList : JValue → Option (List String)
  | .jarr es => asStrings es
  | _ => none

/-- The configuration record the traversal reads.  The source reads
`pluginOptions.allowedErrorClasses` lazily inside the walk (a non-array
value would raise a TypeError at the first throw it is used on); it is
decoded eagerly here, before the walk, which only differs on
configurations whose decoded `allowedErrorClasses` is valid JSON but not
an array of strings. -/
def mkConfig (p : PluginOptions) : Except String Config :=
  match toStringList p.allowedErrorClasses with
  | some l => .ok ⟨p.highlightThrows, l, p.enforceAllowedClasses⟩
  | none => .error "TypeError: allowedErrorClasses is not a string array"

/-- Embeds `processThrowStatements` (src/index.ts lines 56-166): decode the
three list-valued options in place, merge with the defaults, evaluate the
include/exclude filter, and either return the tree untouched (line 85) or
run the annotating traversal (line 164).  The first component of the
result is the caller-supplied options object as it stands after the call
(the source assigns the decoded lists into it on lines 66, 70 and 74). -/
def processThrowStatements (m : String → String → Bool)
    (jp : String → Except String JValue) (options : RawOptions)
    (filePath : String) (ast : ProgramTree) :
    Except String (RawOptions × ProgramTree) := do
  let options ← decodeOptions jp options
  let pluginOptions := mergeOptions options
  let shouldInc ← shouldIncludeOf m filePath pluginOptions.«include»
  let shouldExc ← shouldExcludeOf m filePath pluginOptions.exclude
  if filterRejects shouldInc shouldExc then
    return (options, ast)
  else
    let cfg ← mkConfig pluginOptions
    return (options, annotate cfg ast)

/-! ## Sample objects used by witnesses and counterexamples -/

/-- A one-line source location at line `l`. -/
def locAt (l : Int) : SourceLocation :=
  ⟨⟨l, 0⟩, ⟨l, 20⟩⟩

/-- An `Identifier` node named `nm` at line `l`. -/
def identNode (nm : String) (l : Int) : Node :=
  .mk "Identifier" (locAt l) (10, 13) (.cons "name" (.fstr nm) .nil)

/-- A `new Foo()` expression node at line `l`. -/
def newFooNode (l : Int) : Node :=
  .mk "NewExpression" (locAt l) (6, 20)
    (.cons "callee" (.fnode (identNode "Foo" l)) (.cons "arguments" (.flist .nil) .nil))

/-- A `throw new Foo()` statement at line 5. -/
def throwNewFoo : Node :=
  .mk "ThrowStatement" (locAt 5) (0, 20) (.cons "argument" (.fnode (newFooNode 5)) .nil)

/-- A `throw err` statement (bare identifier) at line 7. -/
def throwIdent : Node :=
  .mk "ThrowStatement" (locAt 7) (30, 39) (.cons "argument" (.fnode (identNode "err" 7)) .nil)

/-- An `errors.Foo` member expression at line `l`: it has no `name`
property. -/
def memberCalleeNode (l : Int) : Node :=
  .mk "MemberExpression" (locAt l) (56, 66)
    (.cons "object" (.fnode (identNode "errors" l))
      (.cons "property" (.fnode (identNode "Foo" l)) .nil))

/-- A `new errors.Foo()` expression at line `l`: a constructor invocation
whose callee is not a plain identifier. -/
def newMemberNode (l : Int) : Node :=
  .mk "NewExpression" (locAt l) (56, 70)
    (.cons "callee" (.fnode (memberCalleeNode l)) (.cons "arguments" (.flist .nil) .nil))

/-- A `throw new errors.Foo()` statement at line 9. -/
def throwNewMember : Node :=
  .mk "ThrowStatement" (locAt 9) (50, 70) (.cons "argument" (.fnode (newMemberNode 9)) .nil)

/-- A Program whose body is the single statement `throw new Foo()`. -/
def prog1 : Node :=
  .mk "Program" ⟨⟨1, 0⟩, ⟨10, 0⟩⟩ (0, 200)
    (.cons "body" (.flist (.cons throwNewFoo .nil)) .nil)

/-- The parse result for `prog1`, with an empty comments array and nothing
attached yet. -/
def tree1 : ProgramTree :=
  ⟨prog1, some [], []⟩

/-- A glob matcher under which every pattern matches every path. -/
def mAll : String → String → Bool := fun _ _ => true

/-- A `JSON.parse` model agreeing with the real one on the strings the
witnesses feed it: the two well-formed string arrays used by the
examples, and a `SyntaxError` on everything else (in particular on
`"not json"`). -/
def jpSample : String → Except String JValue := fun s =>
  if s = "[\"A\",\"B\"]" then .ok (jarrS ["A", "B"])
  else if s = "[\"a\"]" then .ok (jarrS ["a"])
  else .error "SyntaxError: Unexpected token"

/-! ## Traversal lemmas -/

mutual

theorem travNode_visits (cfg : Config) (co : Option (List Comment)) (n : Node) :
    (travNode cfg co n).1 = throwsIn n := by
  cases n with
  | mk t l r fs =>
    by_cases h : t = "ThrowStatement" <;>
      simp [travNode, throwsIn, h, travFields_visits cfg co fs]

theorem travFields_visits (cfg : Config) (co : Option (List Comment)) (fs : FieldList) :
    (travFields cfg co fs).1 = throwsInFields fs := by
  cases fs with
  | nil => simp [travFields, throwsInFields]
  | cons k v rest =>
    simp [travFields, throwsInFields, travVal_visits cfg co v, travFields_visits cfg co rest]

theorem travVal_visits (cfg : Config) (co : Option (List Comment)) (v : FieldVal) :
    (travVal cfg co v).1 = throwsInVal v := by
  cases v with
  | fnode n => simp [travVal, throwsInVal, travNode_visits cfg co n]
  | flist ns => simp [travVal, throwsInVal, travList_visits cfg co ns]
  | floc l => simp [travVal, throwsInVal]
  | fnull => simp [travVal, throwsInVal]
  | fundef => simp [travVal, throwsInVal]
  | fnum x => simp [travVal, throwsInVal]
  | fstr s => simp [travVal, throwsInVal]
  | fbool b => simp [travVal, throwsInVal]

theorem travList_visits (cfg : Config) (co : Option (List Comment)) (ns : NodeList) :
    (travList cfg co ns).1 = throwsInList ns := by
  cases ns with
  | nil => simp [travList, throwsInList]
  | cons hd tl =>
    simp [travList, throwsInList, travNode_visits cfg co hd, travList_visits cfg co tl]

end

mutual

theorem travNode_comments (cfg : Config) (co : Option (List Comment)) (n : Node) :
    (travNode cfg co n).2 = (throwsIn n).flatMap (processThrow cfg co) := by
  cases n with
  | mk t l r fs =>
    by_cases h : t = "ThrowStatement" <;>
      simp [travNode, throwsIn, h, travFields_comments cfg co fs]

theorem travFields_comments (cfg : Config) (co : Option (List Comment)) (fs : FieldList) :
    (travFields cfg co fs).2 = (throwsInFields fs).flatMap (processThrow cfg co) := by
  cases fs with
  | nil => simp [travFields, throwsInFields]
  | cons k v rest =>
    simp [travFields, throwsInFields, travVal_comments cfg co v, travFields_comments cfg co rest]

theorem travVal_comments (cfg : Config) (co : Option (List Comment)) (v : FieldVal) :
    (travVal cfg co v).2 = (throwsInVal v).flatMap (processThrow cfg co) := by
  cases v with
  | fnode n => simp [travVal, throwsInVal, travNode_comments cfg co n]
  | flist ns => simp [travVal, throwsInVal, travList_comments cfg co ns]
  | floc l => simp [travVal, throwsInVal]
  | fnull => simp [travVal, throwsInVal]
  | fundef => simp [travVal, throwsInVal]
  | fnum x => simp [travVal, throwsInVal]
  | fstr s => simp [travVal, throwsInVal]
  | fbool b => simp [travVal, throwsInVal]

theorem travList_comments (cfg : Config) (co : Option (List Comment)) (ns : NodeList) :
    (travList cfg co ns).2 = (throwsInList ns).flatMap (processThrow cfg co) := by
  cases ns with
  | nil => simp [travList, throwsInList]
  | cons hd tl =>
    simp [travList, throwsInList, travNode_comments cfg co hd, travList_comments cfg co tl]

end

/-! ## Claim theorems -/

/-- C5: the single depth-first traversal visits every throw-statement node
reachable from the root exactly once, regardless of nesting depth (the
visit list equals, with multiplicity and in order, the list of reachable
throw statements), and accordingly each throw statement is considered for
annotation exactly once per pass (the inserted comments are the
concatenation, over that list, of the per-throw insertions). -/
theorem c5_traversal_visits_each_throw_once (cfg : Config) (co : Option (List Comment))
    (root : Node) :
    (travNode cfg co root).1 = throwsIn root
    ∧ (travNode cfg co root).2 = (throwsIn root).flatMap (processThrow cfg co) :=
  ⟨travNode_visits cfg co root, travNode_comments cfg co root⟩

/-- C7: the annotator's output tree is the same tree with at most comment
nodes added — the Program root (hence every throw node's identity and
location and every non-comment part of the tree, with no new top-level
nodes and no reordering) and the parser's comments array are unchanged,
and the attached comments are extended by exactly the pass's
insertions. -/
theorem c7_annotator_frame (cfg : Config) (t : ProgramTree) :
    (annotate cfg t).root = t.root
    ∧ (annotate cfg t).comments = t.comments
    ∧ (annotate cfg t).attached = t.attached ++ insertedComments cfg t :=
  ⟨rfl, rfl, rfl⟩

/-- C2 (amended): a run of the Annotator does not change the Program's
top-level comments array — the only state the duplicate-suppression check
consults — and the synthesized comments' recorded lines equal the throw
lines, so a second run over the same in-memory tree inserts exactly the
same comments again rather than being suppressed; suppression takes
effect only when the tree's comments array already holds an identical
comment on the line preceding a throw (as after printing and re-parsing
annotated output). -/
theorem c2_second_run_reinserts (cfg : Config) (t : ProgramTree) :
    annotate cfg (annotate cfg t)
      = ⟨t.root, t.comments, t.attached ++ insertedComments cfg t ++ insertedComments cfg t⟩ :=
  rfl

/-- C2 (counterexample): on a tree with one `throw new Foo()` statement and
an empty comments array, with `highlightThrows` enabled, the first run
attaches one comment and the second run attaches a second identical one:
the comment collections after one and after two runs differ, so the
duplicate-suppression check does not prevent the second insertion. -/
theorem c2_counterexample :
    (annotate ⟨true, [], false⟩ (annotate ⟨true, [], false⟩ tree1)).attached
      ≠ (annotate ⟨true, [], false⟩ tree1).attached
    ∧ (annotate ⟨true, [], false⟩ (annotate ⟨true, [], false⟩ tree1)).attached.length = 2
    ∧ (annotate ⟨true, [], false⟩ tree1).attached.length = 1 := by
  refine ⟨by decide, by decide, by decide⟩

/-- C3 (amended): with `enforceAllowedClasses` on, a throw whose argument is
a direct constructor invocation `new <Identifier>(...)` is classified
allowed iff the callee's name is in `allowedErrorClasses`; an argument
shape that is neither such a constructor invocation nor a bare identifier
is classified disallowed — both a constructor invocation whose callee has
no truthy identifier name (e.g. `new errors.Foo()`) and an argument whose
type is neither `NewExpression` nor `Identifier`; and an unsuppressed
disallowed throw receives a warning comment whose text is
" WARNING: Only throw instances of: " followed by the comma-joined
`allowedErrorClasses` list and a trailing space. -/
theorem c3_enforcement_classification (cfg : Config) (co : Option (List Comment))
    (thr arg : Node)
    (henf : cfg.enforceAllowedClasses = true)
    (ht : thr.type = "ThrowStatement")
    (ha : thr.fields.lookupF "argument" = some (.fnode arg)) :
    (∀ nm, nm ≠ "" → arg.type = "NewExpression" → calleeNameOf arg = some nm →
      isAllowedErrorClass thr cfg.allowedErrorClasses = cfg.allowedErrorClasses.contains nm)
    ∧ (arg.type = "NewExpression" → calleeNameOf arg = none →
      isAllowedErrorClass thr cfg.allowedErrorClasses = false)
    ∧ (arg.type ≠ "NewExpression" → arg.type ≠ "Identifier" →
      isAllowedErrorClass thr cfg.allowedErrorClasses = false)
    ∧ (isAllowedErrorClass thr cfg.allowedErrorClasses = false →
      hasComment co (warnComment cfg.allowedErrorClasses thr) = false →
      warnComment cfg.allowedErrorClasses thr ∈ processThrow cfg co thr
      ∧ (warnComment cfg.allowedErrorClasses thr).value
          = " WARNING: Only throw instances of: "
            ++ String.intercalate ", " cfg.allowedErrorClasses ++ " ") := by
  refine ⟨?_, ?_, ?_, ?_⟩
  · intro nm _ hnew hname
    simp [isAllowedErrorClass, ha, hnew, hname]
  · intro hnew hnone
    simp [isAllowedErrorClass, ha, hnew, hnone]
  · intro h1 h2
    simp [isAllowedErrorClass, ha, h1, h2]
  · intro hdis hsup
    refine ⟨?_, rfl⟩
    simp [processThrow, henf, hdis, hsup]

/-- C3 (counterexample): for `throw new Foo()` with
`allowedErrorClasses = ["Bar"]` and enforcement on, the inserted warning
comment's text is " WARNING: Only throw instances of: Bar " — with a
trailing space — and therefore not the claimed
" WARNING: Only throw instances of: " followed by the comma-joined list
alone. -/
theorem c3_counterexample :
    processThrow ⟨false, ["Bar"], true⟩ (some []) throwNewFoo
      = [warnComment ["Bar"] throwNewFoo]
    ∧ (warnComment ["Bar"] throwNewFoo).value = " WARNING: Only throw instances of: Bar "
    ∧ (warnComment ["Bar"] throwNewFoo).value ≠ " WARNING: Only throw instances of: Bar" := by
  refine ⟨by decide, by decide, by decide⟩

/-- C3 (witness): `throw new Foo()` against `allowedErrorClasses = ["Bar"]`
is classified by membership (here: disallowed) and the warning comment is
inserted for it, and `throw new errors.Foo()` — a constructor invocation
whose callee is not a plain identifier — is classified disallowed. -/
theorem c3_enforcement_classification_witness :
    isAllowedErrorClass throwNewFoo ["Bar"] = (["Bar"].contains "Foo")
    ∧ warnComment ["Bar"] throwNewFoo ∈ processThrow ⟨false, ["Bar"], true⟩ (some []) throwNewFoo
    ∧ isAllowedErrorClass throwNewMember ["Bar"] = false := by
  have h := c3_enforcement_classification ⟨false, ["Bar"], true⟩ (some []) throwNewFoo
    (newFooNode 5) rfl rfl rfl
  have hm := c3_enforcement_classification ⟨false, ["Bar"], true⟩ (some []) throwNewMember
    (newMemberNode 9) rfl rfl rfl
  exact ⟨h.1 "Foo" (by decide) rfl rfl, (h.2.2.2 (by decide) (by decide)).1, hm.2.1 rfl rfl⟩

/-- C4: a throw statement whose argument is a bare identifier is classified
allowed for every content of `allowedErrorClasses`, and no warning
comment is inserted for it (anything the pass inserts at that throw is
the highlight comment), even when `enforceAllowedClasses` is true. -/
theorem c4_bare_identifier_allowed (cfg : Config) (co : Option (List Comment))
    (thr arg : Node)
    (ht : thr.type = "ThrowStatement")
    (ha : thr.fields.lookupF "argument" = some (.fnode arg))
    (hid : arg.type = "Identifier") :
    (∀ allowedClasses : List String, isAllowedErrorClass thr allowedClasses = true)
    ∧ ∀ c ∈ processThrow cfg co thr, c.value = " THROW STATEMENT " := by
  have hall : ∀ allowedClasses : List String, isAllowedErrorClass thr allowedClasses = true := by
    intro allowedClasses
    by_cases hnew : arg.type = "NewExpression"
    · rw [hnew] at hid; simp at hid
    · simp [isAllowedErrorClass, ha, hnew, hid]
  refine ⟨hall, ?_⟩
  intro c hc
  simp [processThrow, hall cfg.allowedErrorClasses] at hc
  rcases hc with ⟨-, hc⟩
  cases hh : hasComment co (highlightComment thr) with
  | true => simp [hh] at hc
  | false =>
    simp [hh] at hc
    simp [hc, highlightComment]

/-- C4 (witness): `throw err` is allowed even against a non-empty allowed
list with enforcement on, and the enforcing pass inserts only
highlight-text comments at it. -/
theorem c4_bare_identifier_allowed_witness :
    isAllowedErrorClass throwIdent ["Bar"] = true
    ∧ ∀ c ∈ processThrow ⟨true, ["Bar"], true⟩ (some []) throwIdent,
        c.value = " THROW STATEMENT " := by
  have h := c4_bare_identifier_allowed ⟨true, ["Bar"], true⟩ (some []) throwIdent
    (identNode "err" 7) rfl rfl rfl
  exact ⟨h.1 ["Bar"], h.2⟩

/-! ## Filter and configuration lemmas -/

/-- A decoded (string-array-valued) pattern option is accepted by micromatch
as the list of its elements. -/
theorem asStrings_map_jstr (l : List String) :
    asStrings (l.map .jstr) = some l := by
  induction l with
  | nil => rfl
  | cons h t ih => simp [asStrings, ih]

theorem toPatterns_jarrS (l : List String) :
    toPatterns (.jarr (l.map .jstr)) = some l := by
  simp [toPatterns, asStrings_map_jstr]

/-- A decoded (string-array-valued) option reads back as the list of its
elements. -/
theorem toStringList_jarrS (l : List String) :
    toStringList (.jarr (l.map .jstr)) = some l := by
  simp [toStringList, asStrings_map_jstr]

/-- A caller-supplied options object whose three list-valued options are
already decoded lists. -/
def mkListOpts (hl ef : Bool) (aec inc exc : List String) : RawOptions :=
  { highlightThrows := some hl
    allowedErrorClasses := some (jarrS aec)
    enforceAllowedClasses := some ef
    «include» := some (jarrS inc)
    exclude := some (jarrS exc) }

/-- The file-filter rule as the spec states it (§4.2, §8): processed iff
(`include` is empty OR the path matches an include pattern) AND NOT
(`exclude` is non-empty AND the path matches an exclude pattern).  This
definition follows the spec's words, for comparison with the
source-derived filter. -/
def specProcess (m : String → String → Bool) (path : String) (I E : List String) : Bool :=
  (I.isEmpty || isMatch m path I) && !(!E.isEmpty && isMatch m path E)

/-- C1 (amended): for every path and decoded include list I and exclude
list E, the invocation succeeds and the Annotator runs if and only if the
path matches at least one pattern in I and matches no pattern in E; since
micromatch matches nothing against an empty pattern list, an empty
include list means no file is processed (and an empty exclude list
excludes nothing). -/
theorem c1_filter_characterization (m : String → String → Bool)
    (jp : String → Except String JValue) (hl ef : Bool) (aec inc exc : List String)
    (path : String) (t : ProgramTree) :
    processThrowStatements m jp (mkListOpts hl ef aec inc exc) path t
      = .ok (mkListOpts hl ef aec inc exc,
          if isMatch m path inc && !isMatch m path exc then annotate ⟨hl, aec, ef⟩ t
          else t) := by
  cases hI : isMatch m path inc <;> cases hE : isMatch m path exc <;>
    simp [processThrowStatements, mkListOpts, decodeOptions, decodeListOption, mergeOptions,
      shouldIncludeOf, shouldExcludeOf, jsTruthy, jarrS, toPatterns_jarrS, toStringList_jarrS,
      filterRejects, mkConfig, hI, hE, Bind.bind, Except.bind, Pure.pure, Except.pure]

/-- C1 (counterexample): with the empty include list (and empty exclude
list), under a matcher for which every pattern matches every path, the
file is not processed: the tree comes back untouched although running the
Annotator would have attached a highlight comment; the spec-side filter
rule says this file is processed. -/
theorem c1_counterexample :
    processThrowStatements mAll jpSample (mkListOpts true false [] [] []) "src/a.ts" tree1
      = .ok (mkListOpts true false [] [] [], tree1)
    ∧ specProcess mAll "src/a.ts" [] [] = true
    ∧ (annotate ⟨true, [], false⟩ tree1).attached ≠ tree1.attached := by
  refine ⟨rfl, rfl, by decide⟩

/-- C6: whenever the file filter rejects a file (the skip condition of
src/index.ts line 84 holds after a successful option decode), the Program
Tree is returned to the caller exactly as supplied — the annotating
traversal does not run. -/
theorem c6_reject_returns_tree_unchanged (m : String → String → Bool)
    (jp : String → Except String JValue) (opts opts' : RawOptions) (path : String)
    (t : ProgramTree) (si se : Bool)
    (h1 : decodeOptions jp opts = .ok opts')
    (h2 : shouldIncludeOf m path (mergeOptions opts').«include» = .ok si)
    (h3 : shouldExcludeOf m path (mergeOptions opts').exclude = .ok se)
    (h4 : filterRejects si se = true) :
    processThrowStatements m jp opts path t = .ok (opts', t) := by
  simp [processThrowStatements, h1, h2, h3, h4, Bind.bind, Except.bind, Pure.pure, Except.pure]

/-- C6 (witness): a file excluded by `exclude = ["**"]` (under a matcher
where every pattern matches) comes back as exactly the input tree. -/
theorem c6_reject_returns_tree_unchanged_witness :
    processThrowStatements mAll jpSample (mkListOpts true true ["Error"] ["**"] ["**"])
        "src/a.ts" tree1
      = .ok (mkListOpts true true ["Error"] ["**"] ["**"], tree1) :=
  c6_reject_returns_tree_unchanged mAll jpSample
    (mkListOpts true true ["Error"] ["**"] ["**"])
    (mkListOpts true true ["Error"] ["**"] ["**"]) "src/a.ts" tree1 true true
    rfl rfl rfl rfl

/-- C8: for each of the three list-valued options — a textual value is
decoded with `JSON.parse` (here: a JSON array of strings decodes to that
list, and it lands in the merged configuration), a value already in list
form passes through unchanged, and a decode failure makes the invocation
fail with the decode error propagated and no configuration used (the
pipeline returns nothing but the error). -/
theorem c8_option_decoding (m : String → String → Bool)
    (jp : String → Except String JValue) (opts : RawOptions) (path : String)
    (t : ProgramTree) (s e : String) (l : List String) (v : List JValue) :
    (decodeListOption jp (some (.jarr v)) = .ok (some (.jarr v)))
    ∧ (jp s = .ok (.jarr (l.map .jstr)) →
        decodeListOption jp (some (.jstr s)) = .ok (some (.jarr (l.map .jstr))))
    ∧ (∀ o', jp s = .ok (.jarr (l.map .jstr)) →
        opts.allowedErrorClasses = some (.jstr s) → decodeOptions jp opts = .ok o' →
        (mergeOptions o').allowedErrorClasses = .jarr (l.map .jstr))
    ∧ (opts.«include» = some (.jstr s) → jp s = .error e →
        processThrowStatements m jp opts path t = .error e)
    ∧ (∀ i', decodeListOption jp opts.«include» = .ok i' →
        opts.exclude = some (.jstr s) → jp s = .error e →
        processThrowStatements m jp opts path t = .error e)
    ∧ (∀ i' x', decodeListOption jp opts.«include» = .ok i' →
        decodeListOption jp opts.exclude = .ok x' →
        opts.allowedErrorClasses = some (.jstr s) → jp s = .error e →
        processThrowStatements m jp opts path t = .error e) := by
  refine ⟨rfl, ?_, ?_, ?_, ?_, ?_⟩
  · intro h
    simp [decodeListOption, h, Except.map]
  · intro o' h1 h2 h3
    rcases hinc : decodeListOption jp opts.«include» with ei | i
    · simp [decodeOptions, hinc, Bind.bind, Except.bind] at h3
    rcases hexc : decodeListOption jp opts.exclude with ee | x
    · simp [decodeOptions, hinc, hexc, Bind.bind, Except.bind] at h3
    simp only [decodeOptions, Bind.bind, Except.bind, hinc, hexc, h2] at h3
    simp only [decodeListOption, h1, Except.map, Pure.pure, Except.pure,
      Except.ok.injEq] at h3
    subst h3
    simp [mergeOptions]
  · intro h1 h2
    simp [processThrowStatements, decodeOptions, decodeListOption, h1, h2,
      Bind.bind, Except.bind, Except.map]
  · intro i' h1 h2 h3
    have hd : decodeOptions jp opts = .error e := by
      simp only [decodeOptions, Bind.bind, Except.bind, h1, h2]
      simp [decodeListOption, h3, Except.map]
    simp [processThrowStatements, hd, Bind.bind, Except.bind]
  · intro i' x' h1 h2 h3 h4
    have hd : decodeOptions jp opts = .error e := by
      simp only [decodeOptions, Bind.bind, Except.bind, h1, h2, h3]
      simp [decodeListOption, h4, Except.map]
    simp [processThrowStatements, hd, Bind.bind, Except.bind]

/-- C8 (witness): the textual value `'["A","B"]'` decodes to the list
`["A", "B"]` and reaches the merged configuration, and the textual value
`"not json"` makes the whole invocation fail with the decode error. -/
theorem c8_option_decoding_witness :
    decodeListOption jpSample (some (.jstr "[\"A\",\"B\"]")) = .ok (some (jarrS ["A", "B"]))
    ∧ (mergeOptions { allowedErrorClasses := some (jarrS ["A", "B"]) }).allowedErrorClasses
        = jarrS ["A", "B"]
    ∧ processThrowStatements mAll jpSample
        { allowedErrorClasses := some (.jstr "not json") } "src/a.ts" tree1
      = .error "SyntaxError: Unexpected token" := by
  refine ⟨?_, ?_, ?_⟩
  · exact (c8_option_decoding mAll jpSample { allowedErrorClasses := none } "src/a.ts" tree1
      "[\"A\",\"B\"]" "err" ["A", "B"] []).2.1 rfl
  · exact (c8_option_decoding mAll jpSample
      { allowedErrorClasses := some (.jstr "[\"A\",\"B\"]") } "src/a.ts" tree1
      "[\"A\",\"B\"]" "err" ["A", "B"] []).2.2.1
      { allowedErrorClasses := some (jarrS ["A", "B"]) } rfl rfl rfl
  · exact (c8_option_decoding mAll jpSample
      { allowedErrorClasses := some (.jstr "not json") } "src/a.ts" tree1
      "not json" "SyntaxError: Unexpected token" [] []).2.2.2.2.2
      none none rfl rfl rfl rfl

/-- C9 (amended): the normalizer is effect-free except that it writes the
decoded values back into the caller-supplied options object's three
list-valued properties — a textual value is replaced by its decode
result, while every non-textual value (and the two boolean properties,
which the record update leaves untouched) comes through unchanged. -/
theorem c9_decode_mutation_frame (jp : String → Except String JValue)
    (opts : RawOptions) (i e a : Option JValue)
    (hi : decodeListOption jp opts.«include» = .ok i)
    (he : decodeListOption jp opts.exclude = .ok e)
    (ha : decodeListOption jp opts.allowedErrorClasses = .ok a) :
    decodeOptions jp opts
      = .ok { opts with «include» := i, exclude := e, allowedErrorClasses := a }
    ∧ ∀ v : Option JValue, (∀ s, v ≠ some (.jstr s)) → decodeListOption jp v = .ok v := by
  constructor
  · simp [decodeOptions, hi, he, ha, Bind.bind, Except.bind, Pure.pure, Except.pure]
  · intro v hv
    match v with
    | none => rfl
    | some .jnull => rfl
    | some (.jbool b) => rfl
    | some (.jnum x) => rfl
    | some (.jstr s) => exact absurd rfl (hv s)
    | some (.jarr es) => rfl
    | some (.jobj fs) => rfl

/-- C9 (witness): decoding an options object whose `include` holds the
textual value `'["a"]'` returns the object with that property replaced by
the decoded list and every other property unchanged. -/
theorem c9_decode_mutation_frame_witness :
    decodeOptions jpSample { «include» := some (.jstr "[\"a\"]") }
      = .ok { «include» := some (jarrS ["a"]) } :=
  (c9_decode_mutation_frame jpSample { «include» := some (.jstr "[\"a\"]") }
    (some (jarrS ["a"])) none none rfl rfl rfl).1

/-- C9 (counterexample): normalization is not free of effects on the
caller-supplied options object: with `include` supplied as the textual
value `'["a"]'`, the object after the call differs from the object as
supplied (its `include` property now holds the decoded array). -/
theorem c9_counterexample :
    decodeOptions jpSample { «include» := some (.jstr "[\"a\"]") }
      ≠ .ok { «include» := some (.jstr "[\"a\"]") } := by
  intro h
  have hval : decodeOptions jpSample { «include» := some (.jstr "[\"a\"]") }
      = .ok { «include» := some (jarrS ["a"]) } := rfl
  rw [hval] at h
  simp [jarrS] at h

/-- C10: option decoding happens before the file filter is evaluated: when
any of the three list-valued options is textual and fails to decode, the
invocation fails for every file path — in particular for paths the
include/exclude filter would have rejected — instead of returning the
tree unmodified. -/
theorem c10_decode_error_precedes_filter (m : String → String → Bool)
    (jp : String → Except String JValue) (opts : RawOptions) (path : String)
    (t : ProgramTree) (s e : String)
    (h1 : opts.«include» = some (.jstr s) ∨ opts.exclude = some (.jstr s)
          ∨ opts.allowedErrorClasses = some (.jstr s))
    (h2 : jp s = .error e) :
    ∃ err, processThrowStatements m jp opts path t = .error err := by
  rcases h1 with h1 | h1 | h1
  · refine ⟨e, ?_⟩
    have hd : decodeOptions jp opts = .error e := by
      simp only [decodeOptions, Bind.bind, Except.bind, h1]
      simp [decodeListOption, h2, Except.map]
    simp [processThrowStatements, hd, Bind.bind, Except.bind]
  · rcases hinc : decodeListOption jp opts.«include» with ei | i
    · refine ⟨ei, ?_⟩
      have hd : decodeOptions jp opts = .error ei := by
        simp only [decodeOptions, Bind.bind, Except.bind, hinc]
      simp [processThrowStatements, hd, Bind.bind, Except.bind]
    · refine ⟨e, ?_⟩
      have hd : decodeOptions jp opts = .error e := by
        simp only [decodeOptions, Bind.bind, Except.bind, hinc, h1]
        simp [decodeListOption, h2, Except.map]
      simp [processThrowStatements, hd, Bind.bind, Except.bind]
  · rcases hinc : decodeListOption jp opts.«include» with ei | i
    · refine ⟨ei, ?_⟩
      have hd : decodeOptions jp opts = .error ei := by
        simp only [decodeOptions, Bind.bind, Except.bind, hinc]
      simp [processThrowStatements, hd, Bind.bind, Except.bind]
    · rcases hexc : decodeListOption jp opts.exclude with ee | x
      · refine ⟨ee, ?_⟩
        have hd : decodeOptions jp opts = .error ee := by
          simp only [decodeOptions, Bind.bind, Except.bind, hinc, hexc]
        simp [processThrowStatements, hd, Bind.bind, Except.bind]
      · refine ⟨e, ?_⟩
        have hd : decodeOptions jp opts = .error e := by
          simp only [decodeOptions, Bind.bind, Except.bind, hinc, hexc, h1]
          simp [decodeListOption, h2, Except.map]
        simp [processThrowStatements, hd, Bind.bind, Except.bind]

/-- C10 (witness): with `include` supplied as the invalid text "not json"
and an exclude pattern that matches the path, the invocation still fails
with the decode error rather than returning the tree unmodified. -/
theorem c10_decode_error_precedes_filter_witness :
    ∃ err, processThrowStatements mAll jpSample
        { «include» := some (.jstr "not json"), exclude := some (jarrS ["**"]) }
        "node_modules/x.ts" tree1 = .error err :=
  c10_decode_error_precedes_filter mAll jpSample
    { «include» := some (.jstr "not json"), exclude := some (jarrS ["**"]) }
    "node_modules/x.ts" tree1 "not json" "SyntaxError: Unexpected token"
    (Or.inl rfl) rfl
